import Mathlib

/-!
Shallow embedding of the TipSplitter core: the tip-distribution
calculation (client/src/lib/utils/calculationUtils.ts), the hours
calculator (timeUtils), the in-memory shift store
(server/storage.ts) and the route layer around them
(server/routes.ts).  JavaScript numbers are modelled as exact
rationals; Date timestamps as natural numbers; the JS Map keyed by a
record id as a list of records in insertion order (Map.set with an
existing key replaces in place, with a fresh key appends;
Map.delete filters the entry out).
-/

namespace TipSplitter

/-- shared/schema.ts ShiftEmployeeInput. -/
structure ShiftEmployeeInput where
  employeeId : Nat
  position : String
  pointValue : ℚ
  clockIn : String
  clockOut : String
  hoursWorked : ℚ
  points : ℚ
deriving DecidableEq, Repr

/-- calculationUtils.ts calculateTotalPoints: reduce over
(employee.points || 0); on rational inputs x || 0 is x (0 maps to 0). -/
def calculateTotalPoints (employees : List ShiftEmployeeInput) : ℚ :=
  employees.foldl (fun sum employee => sum + employee.points) 0

/-- The per-employee record produced by calculateEmployeeTips. -/
structure TipCalcResult where
  employeeId : Nat
  position : String
  hours : ℚ
  points : ℚ
  digitalTips : ℚ
  cashTips : ℚ
deriving DecidableEq, Repr

/-- The validation pair returned by calculateEmployeeTips. -/
structure TipValidation where
  digital : Bool
  cash : Bool
deriving DecidableEq, Repr

/-- calculationUtils.ts calculateEmployeeTips, translated clause by
clause: the totalPoints === 0 guard returns no results with both
validation flags true; otherwise each employee receives
pool * (points / totalPoints), the distributed sums are re-added and
compared to the pools with tolerance 0.02. -/
def calculateEmployeeTips (employees : List ShiftEmployeeInput)
    (digitalTipsTotal cashTipsTotal : ℚ) :
    List TipCalcResult × TipValidation :=
  let totalPoints := calculateTotalPoints employees
  if totalPoints = 0 then
    ([], { digital := true, cash := true })
  else
    let results := employees.map fun employee =>
      let pointShare := employee.points / totalPoints
      { employeeId := employee.employeeId
        position := employee.position
        hours := employee.hoursWorked
        points := employee.points
        digitalTips := digitalTipsTotal * pointShare
        cashTips := cashTipsTotal * pointShare : TipCalcResult }
    let distributedDigital := results.foldl (fun sum r => sum + r.digitalTips) 0
    let distributedCash := results.foldl (fun sum r => sum + r.cashTips) 0
    (results,
      { digital := decide (|digitalTipsTotal - distributedDigital| < 2/100)
        cash := decide (|cashTipsTotal - distributedCash| < 2/100) })

/-- A parseable HH:MM clock time (timeUtils parses clock strings with
new Date on a fixed dummy date; only hour < 24, minute < 60 parse). -/
structure TimeOfDay where
  hour : Nat
  minute : Nat
deriving DecidableEq, Repr

/-- Minutes since midnight of a clock time, as an integer (the Date
difference in timeUtils is an exact whole number of minutes). -/
def toMinutes (t : TimeOfDay) : ℤ := 60 * t.hour + t.minute

/-- JavaScript Math.round: round half toward positive infinity. -/
def jsRound (x : ℚ) : ℤ := ⌊x + 1/2⌋

/-- JavaScript truncation toward zero (the quotient convention behind
the % operator). -/
def jsTrunc (x : ℚ) : ℤ := if x < 0 then ⌈x⌉ else ⌊x⌋

/-- JavaScript x % 1: the fractional part left after truncating toward
zero (sign follows the dividend). -/
def jsMod1 (x : ℚ) : ℚ := x - jsTrunc x

/-- timeUtils calculateHoursWorked.  Empty clock strings are modelled
as none.  The source signature defaults roundingMinutes to 15.  The
midnight adjustment adds 24h to clock-out when it parses earlier than
clock-in; the rounding branch runs only for a positive granularity and
recombines Math.floor of the hours with the rounded fractional
minutes. -/
def calculateHoursWorked (clockIn clockOut : Option TimeOfDay)
    (roundingMinutes : ℚ := 15) : ℚ :=
  match clockIn, clockOut with
  | some tin, some tout =>
    let inMinutes : ℤ := toMinutes tin
    let outMinutes : ℤ :=
      if toMinutes tout < inMinutes then toMinutes tout + 24 * 60 else toMinutes tout
    let hoursWorked : ℚ := ((outMinutes - inMinutes : ℤ) : ℚ) / 60
    if 0 < roundingMinutes then
      let fractionalHours := jsMod1 hoursWorked
      let fractionalMinutes := fractionalHours * 60
      let roundedMinutes : ℚ :=
        (jsRound (fractionalMinutes / roundingMinutes) : ℚ) * roundingMinutes
      (⌊hoursWorked⌋ : ℚ) + roundedMinutes / 60
    else hoursWorked
  | _, _ => 0

/-- The raw (pre-rounding) hours of calculateHoursWorked: the value of
its hoursWorked variable just before the rounding branch, 0 when
either clock string is empty. -/
def rawHoursWorked (clockIn clockOut : Option TimeOfDay) : ℚ :=
  match clockIn, clockOut with
  | some tin, some tout =>
    let inMinutes : ℤ := toMinutes tin
    let outMinutes : ℤ :=
      if toMinutes tout < inMinutes then toMinutes tout + 24 * 60 else toMinutes tout
    ((outMinutes - inMinutes : ℤ) : ℚ) / 60
  | _, _ => 0

/-- shared/schema.ts Employee row. -/
structure Employee where
  id : Nat
  employeeId : Nat
  firstName : String
  lastName : String
  positions : List String
deriving DecidableEq, Repr

/-- shared/schema.ts Shift row; createdAt is the insertion timestamp. -/
structure Shift where
  id : Nat
  date : String
  type : String
  creditCardTips : ℚ
  houseTips : ℚ
  cashTips : ℚ
  createdAt : Nat
deriving DecidableEq, Repr

/-- shared/schema.ts InsertShift: the shift columns minus id and
createdAt. -/
structure InsertShift where
  date : String
  type : String
  creditCardTips : ℚ
  houseTips : ℚ
  cashTips : ℚ
deriving DecidableEq, Repr

/-- The TypeScript type Partial of InsertShift accepted by
MemStorage.updateShift: a field that is none is absent from the patch
object, so the object spread keeps the stored value. -/
structure InsertShiftPatch where
  date : Option String
  type : Option String
  creditCardTips : Option ℚ
  houseTips : Option ℚ
  cashTips : Option ℚ
deriving DecidableEq, Repr

/-- shared/schema.ts InsertShiftEmployee minus the shiftId stamped by
the store (both addShift and updateShift overwrite shiftId and id). -/
structure InsertShiftEmployee where
  employeeId : Nat
  position : String
  pointValue : ℚ
  clockIn : String
  clockOut : String
  hoursWorked : ℚ
  points : ℚ
  digitalTips : ℚ
  cashTips : ℚ
deriving DecidableEq, Repr

/-- shared/schema.ts ShiftEmployee row. -/
structure ShiftEmployee where
  id : Nat
  shiftId : Nat
  employeeId : Nat
  position : String
  pointValue : ℚ
  clockIn : String
  clockOut : String
  hoursWorked : ℚ
  points : ℚ
  digitalTips : ℚ
  cashTips : ℚ
deriving DecidableEq, Repr

/-- shared/schema.ts TipDistributionResult (a result row with the
employee display name resolved). -/
structure TipDistributionResult where
  employeeId : Nat
  name : String
  position : String
  hours : ℚ
  points : ℚ
  digitalTips : ℚ
  cashTips : ℚ
deriving DecidableEq, Repr

/-- server/storage.ts MemStorage, restricted to the fields the
modelled operations touch (restaurantConfig, shiftTypes and positions
are reference data never read or written by the shift operations).
Each JS Map is a list of rows in insertion order; each currentIds
counter is carried alongside. -/
structure MemStorage where
  employees : List Employee
  shifts : List Shift
  shiftEmployees : List ShiftEmployee
  currentShiftId : Nat
  currentShiftEmployeeId : Nat
deriving DecidableEq, Repr

/-- JS Map.set keyed by Shift.id (every stored row has id equal to its
key): replace in place when the key exists, append otherwise. -/
def mapSetShift (rows : List Shift) (s : Shift) : List Shift :=
  if rows.any (fun x => x.id == s.id) then
    rows.map (fun x => if x.id == s.id then s else x)
  else rows ++ [s]

/-- JS Map.set keyed by ShiftEmployee.id. -/
def mapSetShiftEmployee (rows : List ShiftEmployee) (se : ShiftEmployee) :
    List ShiftEmployee :=
  if rows.any (fun x => x.id == se.id) then
    rows.map (fun x => if x.id == se.id then se else x)
  else rows ++ [se]

/-- MemStorage.getShift: Map.get by key. -/
def getShift (st : MemStorage) (id : Nat) : Option Shift :=
  st.shifts.find? (fun s => s.id == id)

/-- MemStorage.getShiftEmployees: all rows of the map, in insertion
order, filtered by shiftId. -/
def getShiftEmployees (st : MemStorage) (shiftId : Nat) : List ShiftEmployee :=
  st.shiftEmployees.filter (fun se => se.shiftId == shiftId)

/-- MemStorage.getEmployeeByEmployeeId: first employee row with the
given numeric employeeId. -/
def getEmployeeByEmployeeId (st : MemStorage) (employeeId : Nat) : Option Employee :=
  st.employees.find? (fun employee => employee.employeeId == employeeId)

/-- One loop iteration of addShift/updateShift: spread the submitted
line, stamp the fresh map key as id and the parent shift id. -/
def stampLine (e : InsertShiftEmployee) (seId shiftId : Nat) : ShiftEmployee :=
  { id := seId
    shiftId := shiftId
    employeeId := e.employeeId
    position := e.position
    pointValue := e.pointValue
    clockIn := e.clockIn
    clockOut := e.clockOut
    hoursWorked := e.hoursWorked
    points := e.points
    digitalTips := e.digitalTips
    cashTips := e.cashTips }

/-- The insertion loop shared by addShift and updateShift: for each
submitted line take the next shiftEmployee counter value, stamp the
line and Map.set it.  Returns the map rows and the counter after the
loop. -/
def insertShiftLines (rows : List ShiftEmployee) (counter shiftId : Nat)
    (lines : List InsertShiftEmployee) : List ShiftEmployee × Nat :=
  match lines with
  | [] => (rows, counter)
  | e :: rest =>
    insertShiftLines (mapSetShiftEmployee rows (stampLine e counter shiftId))
      (counter + 1) shiftId rest

/-- The results array built inside the addShift/updateShift loop: a
row is pushed only when getEmployeeByEmployeeId finds the employee,
echoing the submitted hours, points and tip amounts with the resolved
name. -/
def buildResults (st : MemStorage) (lines : List InsertShiftEmployee) :
    List TipDistributionResult :=
  lines.filterMap fun e =>
    (getEmployeeByEmployeeId st e.employeeId).map fun employee =>
      { employeeId := employee.employeeId
        name := employee.firstName ++ " " ++ employee.lastName
        position := e.position
        hours := e.hoursWorked
        points := e.points
        digitalTips := e.digitalTips
        cashTips := e.cashTips }

/-- MemStorage.addShift: take a fresh shift id, stamp the metadata
with id and the creation timestamp (new Date(), passed in as now),
Map.set the shift, then run the line-insertion loop and build the
results array. -/
def addShift (st : MemStorage) (now : Nat) (shiftData : InsertShift)
    (lines : List InsertShiftEmployee) :
    MemStorage × Shift × List TipDistributionResult :=
  let id := st.currentShiftId
  let newShift : Shift :=
    { id := id
      date := shiftData.date
      type := shiftData.type
      creditCardTips := shiftData.creditCardTips
      houseTips := shiftData.houseTips
      cashTips := shiftData.cashTips
      createdAt := now }
  let shifts1 := mapSetShift st.shifts newShift
  let inserted := insertShiftLines st.shiftEmployees st.currentShiftEmployeeId id lines
  ({ st with
      shifts := shifts1
      shiftEmployees := inserted.1
      currentShiftId := id + 1
      currentShiftEmployeeId := inserted.2 },
    newShift, buildResults st lines)

/-- The object spread of a stored shift with a Partial InsertShift:
present patch fields overwrite, absent ones keep the stored value; id
and createdAt are not InsertShift columns so they always survive. -/
def applyShiftPatch (existing : Shift) (p : InsertShiftPatch) : Shift :=
  { id := existing.id
    date := p.date.getD existing.date
    type := p.type.getD existing.type
    creditCardTips := p.creditCardTips.getD existing.creditCardTips
    houseTips := p.houseTips.getD existing.houseTips
    cashTips := p.cashTips.getD existing.cashTips
    createdAt := existing.createdAt }

/-- MemStorage.updateShift: throw (none) when the shift id is unknown;
otherwise spread the patch over the stored shift and Map.set it, then
delete every row getShiftEmployees returns for this shift — since each
row's id is its map key this removes exactly the rows with this
shiftId — and run the same insertion loop as addShift on the
submitted lines. -/
def updateShift (st : MemStorage) (id : Nat) (shiftData : InsertShiftPatch)
    (lines : List InsertShiftEmployee) :
    Option (MemStorage × Shift × List TipDistributionResult) :=
  match getShift st id with
  | none => none
  | some existingShift =>
    let updatedShift := applyShiftPatch existingShift shiftData
    let shifts1 := mapSetShift st.shifts updatedShift
    let remaining := st.shiftEmployees.filter (fun se => !(se.shiftId == id))
    let inserted := insertShiftLines remaining st.currentShiftEmployeeId id lines
    some ({ st with
        shifts := shifts1
        shiftEmployees := inserted.1
        currentShiftEmployeeId := inserted.2 },
      updatedShift, buildResults st lines)

/-- MemStorage.deleteShift: Map.delete the shift, then delete every
shiftEmployee row whose shiftId matches. -/
def deleteShift (st : MemStorage) (id : Nat) : MemStorage :=
  { st with
      shifts := st.shifts.filter (fun s => !(s.id == id))
      shiftEmployees := st.shiftEmployees.filter (fun se => !(se.shiftId == id)) }

/-- shared/schema.ts ShiftInput, the body of POST /api/calculate-tips. -/
structure ShiftInput where
  date : String
  type : String
  creditCardTips : ℚ
  houseTips : ℚ
  cashTips : ℚ
  employees : List ShiftEmployeeInput
deriving DecidableEq, Repr

/-- routes.ts POST /api/calculate-tips: reject with a 400 message when
the points sum to zero, otherwise allocate each pool proportionally
(digital = creditCardTips + houseTips) and attach the display name of
each employee, falling back to an id label when the employee is
unknown. -/
def calculateTipsRoute (st : MemStorage) (shiftData : ShiftInput) :
    Except String (List TipDistributionResult) :=
  let totalPoints := shiftData.employees.foldl (fun sum emp => sum + emp.points) 0
  if totalPoints = 0 then
    Except.error ("Total points cannot be zero")
  else
    let digitalTips := shiftData.creditCardTips + shiftData.houseTips
    let cashTips := shiftData.cashTips
    Except.ok (shiftData.employees.map fun emp =>
      let pointShare := emp.points / totalPoints
      let name :=
        match st.employees.find? (fun e => e.employeeId == emp.employeeId) with
        | some employee => employee.firstName ++ " " ++ employee.lastName
        | none => "Employee #" ++ toString emp.employeeId
      { employeeId := emp.employeeId
        name := name
        position := emp.position
        hours := emp.hoursWorked
        points := emp.points
        digitalTips := digitalTips * pointShare
        cashTips := cashTips * pointShare })

/-- One employee object of the PUT /api/shifts/:id request body (the
numeric fields arrive as strings and go through parseFloat; they are
modelled as the parsed rationals). -/
structure PutShiftEmployeeBody where
  employeeId : Nat
  position : String
  pointValue : ℚ
  clockIn : String
  clockOut : String
  hoursWorked : ℚ
  points : ℚ
deriving DecidableEq, Repr

/-- An InsertShift sent as a full patch object (the route always
builds all five metadata fields). -/
def fullPatch (s : InsertShift) : InsertShiftPatch :=
  { date := some s.date
    type := some s.type
    creditCardTips := some s.creditCardTips
    houseTips := some s.houseTips
    cashTips := some s.cashTips }

/-- routes.ts PUT /api/shifts/:id: 404 (none) when the shift does not
exist; otherwise format the employee data with digitalTips and
cashTips hard-coded to 0 — the source comments say the storage layer
will recalculate them — and call storage.updateShift. -/
def putShiftRoute (st : MemStorage) (id : Nat) (shift : InsertShift)
    (employees : List PutShiftEmployeeBody) :
    Option (MemStorage × Shift × List TipDistributionResult) :=
  match getShift st id with
  | none => none
  | some _ =>
    let shiftEmployeesData : List InsertShiftEmployee := employees.map fun employee =>
      { employeeId := employee.employeeId
        position := employee.position
        pointValue := employee.pointValue
        clockIn := employee.clockIn
        clockOut := employee.clockOut
        hoursWorked := employee.hoursWorked
        points := employee.points
        digitalTips := 0
        cashTips := 0 }
    updateShift st id (fullPatch shift) shiftEmployeesData

/-! Theorems about the tip allocator -/

/-- C1 counterexample: a single line whose points are 0 makes
totalPoints 0, and calculateEmployeeTips then reports an empty result
set with BOTH validation flags true — an outcome reported as valid,
refuting the claim that the validation outcome is flagged invalid for
both pools. -/
theorem calculateEmployeeTips_zeroPoints_reports_valid :
    calculateTotalPoints [⟨1, "Server", 1, "", "", 0, 0⟩] = 0 ∧
    (calculateEmployeeTips [⟨1, "Server", 1, "", "", 0, 0⟩] 100 20).1 = [] ∧
    (calculateEmployeeTips [⟨1, "Server", 1, "", "", 0, 0⟩] 100 20).2.digital = true ∧
    (calculateEmployeeTips [⟨1, "Server", 1, "", "", 0, 0⟩] 100 20).2.cash = true := by
  refine ⟨?_, ?_, ?_, ?_⟩ <;>
    norm_num [calculateEmployeeTips, calculateTotalPoints]

/-- C1 (amended): when the submitted points sum to 0 the allocator
returns an empty result set with no division performed, and the
calculate-tips route rejects the request with an error; the allocator
validation flags however read true (vacuously valid) rather than
invalid. -/
theorem zeroTotalPoints_rejected (emps : List ShiftEmployeeInput)
    (d c : ℚ) (st : MemStorage) (si : ShiftInput)
    (hsi : si.employees = emps)
    (h : calculateTotalPoints emps = 0) :
    calculateEmployeeTips emps d c = ([], { digital := true, cash := true }) ∧
    calculateTipsRoute st si = Except.error ("Total points cannot be zero") := by
  constructor
  · unfold calculateEmployeeTips
    rw [h]
    simp
  · unfold calculateTipsRoute
    have hz : si.employees.foldl (fun sum emp => sum + emp.points) 0 = 0 := by
      rw [hsi]; exact h
    simp only [hz, if_pos]

/-- Witness for zeroTotalPoints_rejected at a concrete zero-points
input. -/
theorem zeroTotalPoints_rejected_witness :
    calculateTotalPoints [⟨2, "Busser", 1, "", "", 0, 0⟩] = 0 ∧
    calculateEmployeeTips [⟨2, "Busser", 1, "", "", 0, 0⟩] 50 10 =
      ([], { digital := true, cash := true }) ∧
    calculateTipsRoute ⟨[], [], [], 1, 1⟩
      ⟨"2025-01-01", "Dinner", 40, 10, 10, [⟨2, "Busser", 1, "", "", 0, 0⟩]⟩ =
      Except.error ("Total points cannot be zero") := by
  have h0 : calculateTotalPoints [⟨2, "Busser", 1, "", "", 0, 0⟩] = (0 : ℚ) := by
    norm_num [calculateTotalPoints]
  have h := zeroTotalPoints_rejected [⟨2, "Busser", 1, "", "", 0, 0⟩] 50 10
    ⟨[], [], [], 1, 1⟩
    ⟨"2025-01-01", "Dinner", 40, 10, 10, [⟨2, "Busser", 1, "", "", 0, 0⟩]⟩
    rfl h0
  exact ⟨h0, h.1, h.2⟩

/-- Shared unfolding lemma: with a nonzero points total the result
list of calculateEmployeeTips is the proportional map over the input
lines. -/
theorem tipResults_eq_map (emps : List ShiftEmployeeInput) (d c : ℚ)
    (h : calculateTotalPoints emps ≠ 0) :
    (calculateEmployeeTips emps d c).1 = emps.map fun e =>
      { employeeId := e.employeeId
        position := e.position
        hours := e.hoursWorked
        points := e.points
        digitalTips := d * (e.points / calculateTotalPoints emps)
        cashTips := c * (e.points / calculateTotalPoints emps) } := by
  unfold calculateEmployeeTips
  rw [if_neg h]

/-- C2: with a positive points total and non-negative pools the
allocator maps each input line, in order, to
pool * (points / totalPoints) for both pools. -/
theorem calculateEmployeeTips_proportional (emps : List ShiftEmployeeInput)
    (d c : ℚ) (_hd : 0 ≤ d) (_hc : 0 ≤ c)
    (h : 0 < calculateTotalPoints emps) :
    (calculateEmployeeTips emps d c).1 = emps.map fun e =>
      { employeeId := e.employeeId
        position := e.position
        hours := e.hoursWorked
        points := e.points
        digitalTips := d * (e.points / calculateTotalPoints emps)
        cashTips := c * (e.points / calculateTotalPoints emps) } :=
  tipResults_eq_map emps d c h.ne'

/-- Witness for calculateEmployeeTips_proportional: points 3 and 1,
digital pool 100, cash pool 20 give 75/15 to the first line and 25/5
to the second, in input order. -/
theorem calculateEmployeeTips_proportional_witness :
    (0 : ℚ) ≤ 100 ∧ (0 : ℚ) ≤ 20 ∧
    0 < calculateTotalPoints
      [⟨1, "Server", 1, "09:00", "17:00", 3, 3⟩, ⟨2, "Busser", 1, "09:00", "17:00", 1, 1⟩] ∧
    (calculateEmployeeTips
      [⟨1, "Server", 1, "09:00", "17:00", 3, 3⟩, ⟨2, "Busser", 1, "09:00", "17:00", 1, 1⟩]
      100 20).1 =
      [⟨1, "Server", 3, 3, 75, 15⟩, ⟨2, "Busser", 1, 1, 25, 5⟩] := by
  have h : (0 : ℚ) < calculateTotalPoints
      [⟨1, "Server", 1, "09:00", "17:00", 3, 3⟩, ⟨2, "Busser", 1, "09:00", "17:00", 1, 1⟩] := by
    norm_num [calculateTotalPoints]
  refine ⟨by norm_num, by norm_num, h, ?_⟩
  rw [calculateEmployeeTips_proportional _ _ _ (by norm_num) (by norm_num) h]
  simp only [List.map_cons, List.map_nil, TipCalcResult.mk.injEq]
  norm_num [calculateTotalPoints]

/-- A left fold that adds a projection of each element equals the sum
of the projected list, shifted by the initial accumulator. -/
theorem foldl_add_eq_sum (g : α → ℚ) :
    ∀ (l : List α) (init : ℚ),
      l.foldl (fun s x => s + g x) init = init + (l.map g).sum := by
  intro l
  induction l with
  | nil => intro init; simp
  | cons a t ih => intro init; simp [ih, add_assoc]

/-- Summing d * (g x / T) over a list factors through the sum of g. -/
theorem sum_map_mul_div (g : α → ℚ) (d T : ℚ) :
    ∀ l : List α,
      (l.map fun x => d * (g x / T)).sum = d * ((l.map g).sum / T) := by
  intro l
  induction l with
  | nil => simp
  | cons a t ih => simp [ih, add_div, mul_add]

/-- C3: with a positive points total the distributed digital and cash
sums re-added by the validation step reconcile exactly with the pools
(rational arithmetic has no float error), hence within the fixed
tolerance 0.02, and both validation flags — defined as exactly these
two tolerance comparisons — come out true.  The allocator is a total
function: mismatched totals set a flag, they never throw. -/
theorem calculateEmployeeTips_validation (emps : List ShiftEmployeeInput)
    (d c : ℚ) (h : 0 < calculateTotalPoints emps) :
    |d - ((calculateEmployeeTips emps d c).1.foldl (fun s r => s + r.digitalTips) 0)| < 2/100 ∧
    |c - ((calculateEmployeeTips emps d c).1.foldl (fun s r => s + r.cashTips) 0)| < 2/100 ∧
    (calculateEmployeeTips emps d c).2 = { digital := true, cash := true } := by
  have hne : calculateTotalPoints emps ≠ 0 := h.ne'
  have htot : calculateTotalPoints emps = (emps.map fun e => e.points).sum := by
    simpa using foldl_add_eq_sum (fun e => e.points) emps 0
  have hres := tipResults_eq_map emps d c hne
  have hdig : (calculateEmployeeTips emps d c).1.foldl
      (fun s r => s + r.digitalTips) 0 = d := by
    rw [hres, foldl_add_eq_sum, List.map_map]
    have : ((fun r : TipCalcResult => r.digitalTips) ∘ fun e : ShiftEmployeeInput =>
        ({ employeeId := e.employeeId, position := e.position, hours := e.hoursWorked,
           points := e.points, digitalTips := d * (e.points / calculateTotalPoints emps),
           cashTips := c * (e.points / calculateTotalPoints emps) } : TipCalcResult)) =
        fun e => d * (e.points / calculateTotalPoints emps) := rfl
    rw [this, sum_map_mul_div, ← htot, div_self hne, mul_one, zero_add]
  have hcash : (calculateEmployeeTips emps d c).1.foldl
      (fun s r => s + r.cashTips) 0 = c := by
    rw [hres, foldl_add_eq_sum, List.map_map]
    have : ((fun r : TipCalcResult => r.cashTips) ∘ fun e : ShiftEmployeeInput =>
        ({ employeeId := e.employeeId, position := e.position, hours := e.hoursWorked,
           points := e.points, digitalTips := d * (e.points / calculateTotalPoints emps),
           cashTips := c * (e.points / calculateTotalPoints emps) } : TipCalcResult)) =
        fun e => c * (e.points / calculateTotalPoints emps) := rfl
    rw [this, sum_map_mul_div, ← htot, div_self hne, mul_one, zero_add]
  refine ⟨?_, ?_, ?_⟩
  · rw [hdig, sub_self, abs_zero]; norm_num
  · rw [hcash, sub_self, abs_zero]; norm_num
  · have h2 : (calculateEmployeeTips emps d c).2 =
        { digital := decide (|d - (calculateEmployeeTips emps d c).1.foldl
            (fun s r => s + r.digitalTips) 0| < 2/100)
          cash := decide (|c - (calculateEmployeeTips emps d c).1.foldl
            (fun s r => s + r.cashTips) 0| < 2/100) } := by
      unfold calculateEmployeeTips
      rw [if_neg hne]
    rw [h2, hdig, hcash]
    simp only [TipValidation.mk.injEq, decide_eq_true_eq]
    constructor <;> · rw [sub_self, abs_zero]; norm_num

/-- Witness for calculateEmployeeTips_validation at the two-line
example: distributed sums reconcile with pools 100 and 20 and both
flags pass. -/
theorem calculateEmployeeTips_validation_witness :
    0 < calculateTotalPoints
      [⟨1, "Server", 1, "09:00", "17:00", 3, 3⟩, ⟨2, "Busser", 1, "09:00", "17:00", 1, 1⟩] ∧
    (calculateEmployeeTips
      [⟨1, "Server", 1, "09:00", "17:00", 3, 3⟩, ⟨2, "Busser", 1, "09:00", "17:00", 1, 1⟩]
      100 20).2 = { digital := true, cash := true } := by
  have h : (0 : ℚ) < calculateTotalPoints
      [⟨1, "Server", 1, "09:00", "17:00", 3, 3⟩, ⟨2, "Busser", 1, "09:00", "17:00", 1, 1⟩] := by
    norm_num [calculateTotalPoints]
  exact ⟨h, (calculateEmployeeTips_validation _ 100 20 h).2.2⟩

/-! Theorems about the time calculator -/

/-- The raw hours are non-negative for any parseable clock-in: the
midnight branch always leaves clock-out at or after clock-in. -/
theorem rawHoursWorked_nonneg (tin tout : TimeOfDay)
    (hh : tin.hour < 24) (hm : tin.minute < 60) :
    0 ≤ rawHoursWorked (some tin) (some tout) := by
  unfold rawHoursWorked
  have hin : toMinutes tin < 1440 := by unfold toMinutes; omega
  have hout : 0 ≤ toMinutes tout := by unfold toMinutes; omega
  apply div_nonneg _ (by norm_num)
  split_ifs with hlt
  · exact_mod_cast by omega
  · exact_mod_cast by omega

/-- With a non-positive granularity the rounding branch is skipped and
calculateHoursWorked returns the raw hours. -/
theorem calculateHoursWorked_eq_raw (cin cout : Option TimeOfDay) (g : ℚ)
    (hg : ¬ 0 < g) :
    calculateHoursWorked cin cout g = rawHoursWorked cin cout := by
  cases cin <;> cases cout <;>
    simp [calculateHoursWorked, rawHoursWorked, hg]

/-- With a positive granularity calculateHoursWorked is the rounding
expression applied to the raw hours. -/
theorem calculateHoursWorked_eq_rounded (tin tout : TimeOfDay) (g : ℚ)
    (hg : 0 < g) :
    calculateHoursWorked (some tin) (some tout) g =
      (⌊rawHoursWorked (some tin) (some tout)⌋ : ℚ) +
        ((jsRound (jsMod1 (rawHoursWorked (some tin) (some tout)) * 60 / g) : ℤ) : ℚ)
          * g / 60 := by
  simp only [calculateHoursWorked, rawHoursWorked, if_pos hg]

/-- On non-negative inputs the JS fractional part x % 1 is the
distance to the floor. -/
theorem jsMod1_of_nonneg (x : ℚ) (hx : 0 ≤ x) : jsMod1 x = x - ⌊x⌋ := by
  unfold jsMod1 jsTrunc
  rw [if_neg (not_lt.mpr hx)]

/-- C6 counterexample: calling calculateHoursWorked with the
granularity argument absent does NOT return the raw hours — the
parameter defaults to 15, so 9:00 to 16:07 gives 7.0 instead of the
raw 7 + 7/60. -/
theorem calculateHoursWorked_default_rounds :
    calculateHoursWorked (some ⟨9, 0⟩) (some ⟨16, 7⟩) ≠
      rawHoursWorked (some ⟨9, 0⟩) (some ⟨16, 7⟩) := by
  norm_num [calculateHoursWorked, rawHoursWorked, toMinutes, jsMod1, jsTrunc, jsRound]

/-- C6 (amended): a granularity of 0 returns the raw hours unmodified;
an absent granularity argument however defaults to 15 and therefore
applies 15-minute rounding. -/
theorem calculateHoursWorked_granularity_zero (cin cout : Option TimeOfDay) :
    calculateHoursWorked cin cout 0 = rawHoursWorked cin cout ∧
    calculateHoursWorked cin cout = calculateHoursWorked cin cout 15 :=
  ⟨calculateHoursWorked_eq_raw cin cout 0 (by norm_num), rfl⟩

/-- C7: when clock-out parses earlier than clock-in, 24 hours are
added to clock-out before subtracting, and the result is never
negative for any granularity. -/
theorem calculateHoursWorked_overnight (tin tout : TimeOfDay)
    (hh : tin.hour < 24) (hm : tin.minute < 60)
    (hlt : toMinutes tout < toMinutes tin) :
    calculateHoursWorked (some tin) (some tout) 0 =
      ((toMinutes tout + 24 * 60 - toMinutes tin : ℤ) : ℚ) / 60 ∧
    ∀ g : ℚ, 0 ≤ calculateHoursWorked (some tin) (some tout) g := by
  have hraw := rawHoursWorked_nonneg tin tout hh hm
  constructor
  · rw [calculateHoursWorked_eq_raw _ _ 0 (by norm_num)]
    simp only [rawHoursWorked, if_pos hlt]
  · intro g
    by_cases hg : 0 < g
    · rw [calculateHoursWorked_eq_rounded tin tout g hg]
      have hfl : (0 : ℚ) ≤ (⌊rawHoursWorked (some tin) (some tout)⌋ : ℚ) := by
        exact_mod_cast Int.floor_nonneg.mpr hraw
      have hmod : 0 ≤ jsMod1 (rawHoursWorked (some tin) (some tout)) := by
        rw [jsMod1_of_nonneg _ hraw]
        exact sub_nonneg.mpr (Int.floor_le _)
      have harg : 0 ≤ jsMod1 (rawHoursWorked (some tin) (some tout)) * 60 / g :=
        div_nonneg (mul_nonneg hmod (by norm_num)) hg.le
      have hrd : (0 : ℚ) ≤
          ((jsRound (jsMod1 (rawHoursWorked (some tin) (some tout)) * 60 / g) : ℤ) : ℚ) := by
        have : (0 : ℤ) ≤ jsRound (jsMod1 (rawHoursWorked (some tin) (some tout)) * 60 / g) :=
          Int.floor_nonneg.mpr (by linarith)
        exact_mod_cast this
      have := div_nonneg (mul_nonneg hrd hg.le) (by norm_num : (0:ℚ) ≤ 60)
      linarith
    · rw [calculateHoursWorked_eq_raw _ _ g hg]
      exact hraw

/-- Witness for calculateHoursWorked_overnight: 22:00 to 02:00 with
rounding 0 gives exactly 4.0 hours. -/
theorem calculateHoursWorked_overnight_witness :
    toMinutes ⟨2, 0⟩ < toMinutes ⟨22, 0⟩ ∧
    0 ≤ calculateHoursWorked (some ⟨22, 0⟩) (some ⟨2, 0⟩) 0 ∧
    calculateHoursWorked (some ⟨22, 0⟩) (some ⟨2, 0⟩) 0 = 4 := by
  have h := calculateHoursWorked_overnight ⟨22, 0⟩ ⟨2, 0⟩ (by norm_num) (by norm_num)
    (by norm_num [toMinutes])
  refine ⟨by norm_num [toMinutes], h.2 0, ?_⟩
  rw [h.1]
  norm_num [toMinutes]

/-- The spec's own wording of the rounding step: split the raw hours
into the integer hour part and the fractional part, convert the
fraction to minutes, round those minutes to the nearest multiple of
the granularity with round-half-up, convert back and recombine. -/
def specRoundedHours (raw g : ℚ) : ℚ :=
  (⌊raw⌋ : ℚ) + ((⌊(raw - (⌊raw⌋ : ℚ)) * 60 / g + 1/2⌋ : ℤ) : ℚ) * g / 60

/-- C8: for a positive granularity the code's rounding (a truncating
percent-one fractional part, Math.round, Math.floor) coincides with
the spec's floor-based split-round-recombine description. -/
theorem calculateHoursWorked_rounding (tin tout : TimeOfDay) (g : ℚ)
    (hh : tin.hour < 24) (hm : tin.minute < 60) (hg : 0 < g) :
    calculateHoursWorked (some tin) (some tout) g =
      specRoundedHours (rawHoursWorked (some tin) (some tout)) g := by
  have hraw := rawHoursWorked_nonneg tin tout hh hm
  rw [calculateHoursWorked_eq_rounded tin tout g hg, jsMod1_of_nonneg _ hraw]
  unfold specRoundedHours jsRound
  rfl

/-- Witness for calculateHoursWorked_rounding: raw hours 7h07m with
granularity 15 round to exactly 7.0. -/
theorem calculateHoursWorked_rounding_witness :
    (0 : ℚ) < 15 ∧
    calculateHoursWorked (some ⟨9, 0⟩) (some ⟨16, 7⟩) 15 =
      specRoundedHours (rawHoursWorked (some ⟨9, 0⟩) (some ⟨16, 7⟩)) 15 ∧
    rawHoursWorked (some ⟨9, 0⟩) (some ⟨16, 7⟩) = 7 + 7/60 ∧
    calculateHoursWorked (some ⟨9, 0⟩) (some ⟨16, 7⟩) 15 = 7 := by
  refine ⟨by norm_num,
    calculateHoursWorked_rounding ⟨9, 0⟩ ⟨16, 7⟩ 15 (by norm_num) (by norm_num) (by norm_num),
    ?_, ?_⟩ <;>
    norm_num [calculateHoursWorked, rawHoursWorked, toMinutes, jsMod1, jsTrunc, jsRound]

/-! Theorems about the shift record store -/

/-- C9: deleting a shift removes the shift record and every employee
line of that shift: a subsequent getShift returns nothing and
getShiftEmployees returns the empty list. -/
theorem deleteShift_cascades (st : MemStorage) (id : Nat) :
    getShift (deleteShift st id) id = none ∧
    getShiftEmployees (deleteShift st id) id = [] := by
  constructor
  · rw [getShift, List.find?_eq_none]
    intro s hs
    rw [deleteShift] at hs
    simp only [List.mem_filter, Bool.not_eq_eq_eq_not, Bool.not_true] at hs
    simp [hs.2]
  · rw [getShiftEmployees]
    rw [List.filter_eq_nil_iff]
    intro se hse
    rw [deleteShift] at hse
    simp only [List.mem_filter, Bool.not_eq_eq_eq_not, Bool.not_true] at hse
    simp [hse.2]

/-- Replacing the row a successful find? returned, keyed by the same
id, makes find? return the replacement. -/
theorem find?_mapSetShift (rows : List Shift) (i : Nat) (s u : Shift)
    (hfind : rows.find? (fun x => x.id == i) = some s) (hu : u.id = s.id) :
    (mapSetShift rows u).find? (fun x => x.id == i) = some u := by
  have hsi : s.id = i := by
    have := List.find?_some hfind
    simpa using this
  have hmem : s ∈ rows := List.mem_of_find?_eq_some hfind
  have hany : rows.any (fun x => x.id == u.id) = true := by
    rw [List.any_eq_true]
    exact ⟨s, hmem, by simp [hu]⟩
  rw [mapSetShift, if_pos hany]
  clear hmem hany
  induction rows with
  | nil => simp at hfind
  | cons a t ih =>
    by_cases ha : a.id = i
    · have hga : (if a.id == u.id then u else a) = u := by simp [ha, hu, hsi]
      simp only [List.map_cons, hga]
      rw [List.find?_cons_of_pos]
      simp [hu, hsi]
    · have hga : (if a.id == u.id then u else a) = a := by
        simp [hu, hsi, ha]
      rw [List.find?_cons_of_neg _ (by simp [ha])] at hfind
      simp only [List.map_cons, hga]
      rw [List.find?_cons_of_neg _ (by simp [ha])]
      exact ih hfind

/-- C10: updateShift keeps the shift's internal id and its createdAt
timestamp; only the metadata fields supplied in the patch replace the
stored ones, and the updated record is what a subsequent getShift
returns. -/
theorem updateShift_preserves_identity (st : MemStorage) (id : Nat)
    (p : InsertShiftPatch) (lines : List InsertShiftEmployee)
    (s : Shift) (st2 : MemStorage) (s2 : Shift) (rs : List TipDistributionResult)
    (hget : getShift st id = some s)
    (hup : updateShift st id p lines = some (st2, s2, rs)) :
    s2.id = s.id ∧ s2.createdAt = s.createdAt ∧
    s2.date = p.date.getD s.date ∧
    s2.type = p.type.getD s.type ∧
    s2.creditCardTips = p.creditCardTips.getD s.creditCardTips ∧
    s2.houseTips = p.houseTips.getD s.houseTips ∧
    s2.cashTips = p.cashTips.getD s.cashTips ∧
    getShift st2 id = some s2 := by
  rw [updateShift, hget] at hup
  have hs2 : s2 = applyShiftPatch s p := by
    have := congrArg (fun r => r.map (fun x => x.2.1)) hup
    simpa using this.symm
  have hst2 : st2.shifts = mapSetShift st.shifts (applyShiftPatch s p) := by
    have := congrArg (fun r => r.map (fun x => x.1.shifts)) hup
    simpa using this.symm
  subst hs2
  refine ⟨rfl, rfl, rfl, rfl, rfl, rfl, rfl, ?_⟩
  rw [getShift, hst2]
  exact find?_mapSetShift st.shifts id s (applyShiftPatch s p) hget rfl

/-- Witness for updateShift_preserves_identity: a stored shift keeps
id 1 and createdAt 99 across an update that changes every metadata
field. -/
theorem updateShift_preserves_identity_witness :
    getShift
      ⟨[], [⟨1, "2025-01-01", "Dinner", 100, 0, 20, 99⟩], [], 2, 1⟩ 1 =
      some ⟨1, "2025-01-01", "Dinner", 100, 0, 20, 99⟩ ∧
    updateShift
      ⟨[], [⟨1, "2025-01-01", "Dinner", 100, 0, 20, 99⟩], [], 2, 1⟩ 1
      ⟨some "2025-02-02", some "Lunch", some 50, some 5, some 10⟩ [] =
      some (⟨[], [⟨1, "2025-02-02", "Lunch", 50, 5, 10, 99⟩], [], 2, 1⟩,
        ⟨1, "2025-02-02", "Lunch", 50, 5, 10, 99⟩, []) ∧
    (⟨1, "2025-02-02", "Lunch", 50, 5, 10, 99⟩ : Shift).id =
      (⟨1, "2025-01-01", "Dinner", 100, 0, 20, 99⟩ : Shift).id ∧
    (⟨1, "2025-02-02", "Lunch", 50, 5, 10, 99⟩ : Shift).createdAt =
      (⟨1, "2025-01-01", "Dinner", 100, 0, 20, 99⟩ : Shift).createdAt := by
  have hget : getShift
      ⟨[], [⟨1, "2025-01-01", "Dinner", 100, 0, 20, 99⟩], [], 2, 1⟩ 1 =
      some ⟨1, "2025-01-01", "Dinner", 100, 0, 20, 99⟩ := rfl
  have hup : updateShift
      ⟨[], [⟨1, "2025-01-01", "Dinner", 100, 0, 20, 99⟩], [], 2, 1⟩ 1
      ⟨some "2025-02-02", some "Lunch", some 50, some 5, some 10⟩ [] =
      some (⟨[], [⟨1, "2025-02-02", "Lunch", 50, 5, 10, 99⟩], [], 2, 1⟩,
        ⟨1, "2025-02-02", "Lunch", 50, 5, 10, 99⟩, []) := rfl
  have h := updateShift_preserves_identity _ 1 _ [] _ _ _ _ hget hup
  exact ⟨hget, hup, h.1, h.2.1⟩

/-- The submitted payload carried by a stored line (everything except
the stamped map key and parent shift id). -/
def linePayload (se : ShiftEmployee) : InsertShiftEmployee :=
  { employeeId := se.employeeId
    position := se.position
    pointValue := se.pointValue
    clockIn := se.clockIn
    clockOut := se.clockOut
    hoursWorked := se.hoursWorked
    points := se.points
    digitalTips := se.digitalTips
    cashTips := se.cashTips }

/-- The stamped rows the insertion loop produces, with consecutive ids
from the given counter. -/
def stampFrom (shiftId counter : Nat) :
    List InsertShiftEmployee → List ShiftEmployee
  | [] => []
  | e :: rest => stampLine e counter shiftId :: stampFrom shiftId (counter + 1) rest

/-- Map.set with a key no current row carries is an append. -/
theorem mapSetShiftEmployee_append (rows : List ShiftEmployee)
    (se : ShiftEmployee) (h : ∀ x ∈ rows, x.id ≠ se.id) :
    mapSetShiftEmployee rows se = rows ++ [se] := by
  rw [mapSetShiftEmployee, if_neg]
  simp only [List.any_eq_true, not_exists, not_and]
  intro x hx
  simp [h x hx]

/-- When every current row's id is below the counter, the insertion
loop appends the stamped lines in order and advances the counter by
the number of lines. -/
theorem insertShiftLines_eq (lines : List InsertShiftEmployee) :
    ∀ (rows : List ShiftEmployee) (counter shiftId : Nat),
      (∀ x ∈ rows, x.id < counter) →
      insertShiftLines rows counter shiftId lines =
        (rows ++ stampFrom shiftId counter lines, counter + lines.length) := by
  induction lines with
  | nil => intro rows counter shiftId h; simp [insertShiftLines, stampFrom]
  | cons e rest ih =>
    intro rows counter shiftId h
    rw [insertShiftLines,
      mapSetShiftEmployee_append rows (stampLine e counter shiftId)
        (fun x hx => Nat.ne_of_lt (h x hx)),
      ih (rows ++ [stampLine e counter shiftId]) (counter + 1) shiftId]
    · simp [stampFrom, List.append_assoc]
      omega
    · intro x hx
      rcases List.mem_append.mp hx with hx | hx
      · exact Nat.lt_succ_of_lt (h x hx)
      · simp only [List.mem_singleton] at hx
        subst hx
        exact Nat.lt_succ_self counter

/-- Every stamped row carries the parent shift id, so the
getShiftEmployees filter keeps them all. -/
theorem stampFrom_filter_self (shiftId : Nat) :
    ∀ (counter : Nat) (lines : List InsertShiftEmployee),
      (stampFrom shiftId counter lines).filter (fun se => se.shiftId == shiftId) =
        stampFrom shiftId counter lines := by
  intro counter lines
  induction lines generalizing counter with
  | nil => simp [stampFrom]
  | cons e rest ih => simp [stampFrom, List.filter_cons, stampLine, ih]

/-- Stamping preserves the submitted payloads in order. -/
theorem stampFrom_payload (shiftId : Nat) :
    ∀ (counter : Nat) (lines : List InsertShiftEmployee),
      (stampFrom shiftId counter lines).map linePayload = lines := by
  intro counter lines
  induction lines generalizing counter with
  | nil => simp [stampFrom]
  | cons e rest ih => simp [stampFrom, linePayload, stampLine, ih]

/-- Every stamped row receives an id at or above the starting
counter. -/
theorem stampFrom_ids_ge (shiftId : Nat) :
    ∀ (counter : Nat) (lines : List InsertShiftEmployee),
      ∀ se ∈ stampFrom shiftId counter lines, counter ≤ se.id := by
  intro counter lines
  induction lines generalizing counter with
  | nil => simp [stampFrom]
  | cons e rest ih =>
    intro se hse
    rcases List.mem_cons.mp hse with hse | hse
    · subst hse; exact Nat.le_refl counter
    · exact Nat.le_of_succ_le (ih (counter + 1) se hse)

/-- C4: when every stored line id is below the shiftEmployee counter
(the Map-key freshness invariant the auto-incrementing counter
maintains), a successful updateShift leaves the shift with exactly the
stamped copies of the submitted lines, in order: the read-back equals
the stamped list, the payloads are the submitted lines, the count is
the submitted count, and every surviving line has a fresh id — no line
from the prior set remains. -/
theorem updateShift_replaces_lines (st : MemStorage) (id : Nat)
    (p : InsertShiftPatch) (lines : List InsertShiftEmployee)
    (st2 : MemStorage) (s2 : Shift) (rs : List TipDistributionResult)
    (hwf : ∀ se ∈ st.shiftEmployees, se.id < st.currentShiftEmployeeId)
    (hup : updateShift st id p lines = some (st2, s2, rs)) :
    getShiftEmployees st2 id = stampFrom id st.currentShiftEmployeeId lines ∧
    (getShiftEmployees st2 id).map linePayload = lines ∧
    (getShiftEmployees st2 id).length = lines.length ∧
    ∀ se ∈ getShiftEmployees st2 id, st.currentShiftEmployeeId ≤ se.id := by
  rcases hex : getShift st id with _ | existing
  · rw [updateShift, hex] at hup
    exact absurd hup (by simp)
  · rw [updateShift, hex] at hup
    have hrem : ∀ x ∈ st.shiftEmployees.filter (fun se => !(se.shiftId == id)),
        x.id < st.currentShiftEmployeeId :=
      fun x hx => hwf x (List.mem_of_mem_filter hx)
    have hses0 : st2.shiftEmployees =
        (insertShiftLines (st.shiftEmployees.filter (fun se => !(se.shiftId == id)))
          st.currentShiftEmployeeId id lines).1 := by
      have := congrArg (fun r => r.map (fun x => x.1.shiftEmployees)) hup
      simpa using this.symm
    have hses : st2.shiftEmployees =
        st.shiftEmployees.filter (fun se => !(se.shiftId == id)) ++
          stampFrom id st.currentShiftEmployeeId lines := by
      rw [hses0, insertShiftLines_eq lines _ _ _ hrem]
    have hkey : getShiftEmployees st2 id =
        stampFrom id st.currentShiftEmployeeId lines := by
      rw [getShiftEmployees, hses, List.filter_append]
      have h1 : (st.shiftEmployees.filter (fun se => !(se.shiftId == id))).filter
          (fun se => se.shiftId == id) = [] := by
        rw [List.filter_eq_nil_iff]
        intro se hse
        simp only [List.mem_filter, Bool.not_eq_eq_eq_not, Bool.not_true] at hse
        simp [hse.2]
      rw [h1, stampFrom_filter_self, List.nil_append]
    refine ⟨hkey, ?_, ?_, ?_⟩
    · rw [hkey, stampFrom_payload]
    · rw [hkey]
      have := congrArg List.length (stampFrom_payload id st.currentShiftEmployeeId lines)
      simpa using this
    · rw [hkey]
      exact stampFrom_ids_ge id st.currentShiftEmployeeId lines

/-- A one-employee storage used as a concrete test fixture. -/
def sampleStorage : MemStorage :=
  { employees := [⟨1, 7, "Ana", "B", ["Server"]⟩]
    shifts := []
    shiftEmployees := []
    currentShiftId := 1
    currentShiftEmployeeId := 1 }

/-- Fixture line: 8 hours at point value 1, allocated 75 / 15. -/
def sampleLineA : InsertShiftEmployee :=
  ⟨7, "Server", 1, "09:00", "17:00", 8, 8, 75, 15⟩

/-- Fixture line: 4 hours at point value 1, allocated 25 / 5. -/
def sampleLineB : InsertShiftEmployee :=
  ⟨7, "Server", 1, "10:00", "14:00", 4, 4, 25, 5⟩

/-- Fixture line submitted on update. -/
def sampleLineC : InsertShiftEmployee :=
  ⟨7, "Server", 1, "11:00", "15:00", 4, 4, 60, 12⟩

/-- The fixture storage after saving one shift with two lines. -/
def sampleSaved : MemStorage :=
  (addShift sampleStorage 0 ⟨"2025-03-01", "Dinner", 100, 0, 20⟩
    [sampleLineA, sampleLineB]).1

/-- Witness for updateShift_replaces_lines: the fixture shift is saved
with two lines (ids 1 and 2) and updated with one line; the read-back
is exactly the single stamped new line with fresh id 3. -/
theorem updateShift_replaces_lines_witness :
    (∀ se ∈ sampleSaved.shiftEmployees, se.id < sampleSaved.currentShiftEmployeeId) ∧
    ((updateShift sampleSaved 1 (fullPatch ⟨"2025-03-02", "Lunch", 60, 0, 12⟩)
        [sampleLineC]).map fun r => getShiftEmployees r.1 1) =
      some [⟨3, 1, 7, "Server", 1, "11:00", "15:00", 4, 4, 60, 12⟩] := by
  have hwf : ∀ se ∈ sampleSaved.shiftEmployees,
      se.id < sampleSaved.currentShiftEmployeeId := by decide
  obtain ⟨⟨st2, s2, rs⟩, hup⟩ :
      ∃ r, updateShift sampleSaved 1 (fullPatch ⟨"2025-03-02", "Lunch", 60, 0, 12⟩)
        [sampleLineC] = some r := ⟨_, rfl⟩
  have h := updateShift_replaces_lines sampleSaved 1 _ [sampleLineC] st2 s2 rs hwf hup
  refine ⟨hwf, ?_⟩
  rw [hup]
  simp only [Option.map_some']
  rw [h.1]
  rfl

/-- C5 (code bug): updating the fixture shift through the PUT route
persists digitalTips = 0 and cashTips = 0 for the stored line.  The
route hard-codes the zeros with a comment that the storage layer will
recalculate them, but MemStorage.updateShift stores the submitted
amounts verbatim; recomputing fresh from the submitted points (3 of a
3-point total) and the pools would give 100 digital and 20 cash, not
zero. -/
theorem putShiftRoute_stores_zero_placeholders :
    ((putShiftRoute sampleSaved 1 ⟨"2025-03-01", "Dinner", 100, 0, 20⟩
        [⟨7, "Server", 1, "09:00", "12:00", 3, 3⟩]).map
      fun r => (getShiftEmployees r.1 1).map fun se => (se.digitalTips, se.cashTips)) =
      some [((0 : ℚ), (0 : ℚ))] ∧
    (100 + 0 : ℚ) * (3 / 3) = 100 ∧
    (20 : ℚ) * (3 / 3) = 20 ∧
    (100 : ℚ) ≠ 0 ∧ (20 : ℚ) ≠ 0 := by
  exact ⟨rfl, by norm_num, by norm_num, by norm_num, by norm_num⟩

end TipSplitter
